import Mathlib

/-!
Verification of the PdfTextExtract repository (Go) against its
natural-language specification.  The Go sources are shallowly embedded:
byte streams are lists (`List Char` for the object parser, `List Nat` for
the cmap/extractor layers, one element per byte), Go `float64` state that
is only stored and compared is embedded as `Rat` (the embedded code never
performs rounding arithmetic on it), and fallible functions return
`Except`/`Option`.  Function names follow the Go sources
(`core/parser.go`, `extractor/text.go`, the `cmap` package files and
`model/reader.go`).
-/

namespace PdfTextExtract

/-- PDF whitespace, as used by the repository's `IsWhiteSpace` helper
(the helper itself lives in a core file absent from the snapshot; the
byte set is the standard PDF one the spec's lexical layer describes). -/
def IsWhiteSpace (c : Char) : Bool :=
  c.toNat == 0 || c.toNat == 9 || c.toNat == 10 ||
  c.toNat == 12 || c.toNat == 13 || c.toNat == 32

/-- `IsOctalDigit` from the core lexical helpers (bytes 0x30 to 0x37). -/
def IsOctalDigit (c : Char) : Bool :=
  48 ≤ c.toNat && c.toNat ≤ 55

/-- `IsDecimalDigit` from the core lexical helpers (bytes 0x30 to 0x39). -/
def IsDecimalDigit (c : Char) : Bool :=
  48 ≤ c.toNat && c.toNat ≤ 57

/-- Value of one hex digit, accepting both cases, as Go's
`encoding/hex.fromHexChar` does; `none` on a non-digit.  Stated over the
byte value: 0x30..0x39 are the decimals, 0x61..0x66 and 0x41..0x46 the
two letter ranges. -/
def fromHexDigit (c : Char) : Option Nat :=
  if 48 ≤ c.toNat ∧ c.toNat ≤ 57 then some (c.toNat - 48)
  else if 97 ≤ c.toNat ∧ c.toNat ≤ 102 then some (c.toNat - 87)
  else if 65 ≤ c.toNat ∧ c.toNat ≤ 70 then some (c.toNat - 55)
  else none

/-- Go's `hex.DecodeString` with the caller of `parseHexString` ignoring
the returned error: hex digit pairs are decoded until the first invalid
digit (or odd tail), and the bytes decoded so far are kept. -/
def hexDecodePairs : List Char → List Nat
  | c1 :: c2 :: rest =>
    match fromHexDigit c1, fromHexDigit c2 with
    | some h, some l => (h * 16 + l) :: hexDecodePairs rest
    | _, _ => []
  | _ => []

/-- Lower-case hex digit for a value below 16 (Go's `hex.EncodeToString`
alphabet): 0x30-offset digits, 0x57-offset letters. -/
def toHexDigit (n : Nat) : Char :=
  Char.ofNat (if n < 10 then 48 + n else 87 + n)

/-- Serialization of a byte sequence as hex digits, the `to_hex`
direction of the spec's round-trip property (two digits per byte). -/
def hexSerialize : List Nat → List Char
  | [] => []
  | b :: rest => toHexDigit (b / 16) :: toHexDigit (b % 16) :: hexSerialize rest

/-- The digit-collecting loop of `parseHexString` (core/parser.go):
bytes are read until `>`, whitespace is skipped, anything else is
accumulated; EOF before `>` is an error. -/
def parseHexStringLoop (acc : List Char) : List Char → Option (List Char × List Char)
  | [] => none
  | c :: rest =>
    if c = '>' then some (acc, rest)
    else if IsWhiteSpace c then parseHexStringLoop acc rest
    else parseHexStringLoop (acc ++ [c]) rest

/-- `parseHexString` (core/parser.go): jump the leading `<`, collect
digits until `>`, right-pad an odd digit count with `0`, then decode
pairs (the `hex.DecodeString` error is ignored by the Go code). -/
def parseHexString (input : List Char) : Option (List Nat × List Char) :=
  match parseHexStringLoop [] (input.drop 1) with
  | none => none
  | some (digits, rest) =>
    let digits := if digits.length % 2 = 1 then digits ++ ['0'] else digits
    some (hexDecodePairs digits, rest)

theorem fromHexDigit_toHexDigit {n : Nat} (h : n < 16) :
    fromHexDigit (toHexDigit n) = some n := by
  interval_cases n <;> rfl

theorem toHexDigit_ne_gt {n : Nat} (h : n < 16) :
    toHexDigit n ≠ '>' ∧ IsWhiteSpace (toHexDigit n) = false := by
  interval_cases n <;> exact ⟨by decide, by decide⟩

theorem fromHexDigit_isSome_facts {c : Char} (h : (fromHexDigit c).isSome) :
    c ≠ '>' ∧ IsWhiteSpace c = false := by
  unfold fromHexDigit at h
  have hws : ∀ lo hi : Nat, lo ≤ c.toNat → c.toNat ≤ hi → 48 ≤ lo →
      IsWhiteSpace c = false := by
    intro lo hi hlo hhi hween
    simp only [IsWhiteSpace, Bool.or_eq_false_iff, beq_eq_false_iff_ne, ne_eq]
    omega
  have hgt : ∀ lo hi : Nat, lo ≤ c.toNat → c.toNat ≤ hi →
      lo ≠ 62 → hi ≠ 62 → (lo ≤ 62 → 62 ≤ hi → False) → c ≠ '>' := by
    intro lo hi hlo hhi _ _ hnot hc
    subst hc
    have h62 : ('>' : Char).toNat = 62 := rfl
    rw [h62] at hlo hhi
    exact hnot (by omega) (by omega)
  split_ifs at h with h1 h2 h3
  · exact ⟨hgt 48 57 h1.1 h1.2 (by omega) (by omega) (by omega),
      hws 48 57 h1.1 h1.2 (by omega)⟩
  · exact ⟨hgt 97 102 h2.1 h2.2 (by omega) (by omega) (by omega),
      hws 97 102 h2.1 h2.2 (by omega)⟩
  · exact ⟨hgt 65 70 h3.1 h3.2 (by omega) (by omega) (by omega),
      hws 65 70 h3.1 h3.2 (by omega)⟩
  · simp at h

theorem parseHexStringLoop_digits (ds : List Char)
    (hd : ∀ c ∈ ds, (fromHexDigit c).isSome) (acc rest : List Char) :
    parseHexStringLoop acc (ds ++ '>' :: rest) = some (acc ++ ds, rest) := by
  induction ds generalizing acc with
  | nil => simp [parseHexStringLoop]
  | cons c cs ih =>
    have hc := fromHexDigit_isSome_facts (hd c (by simp))
    simp only [List.cons_append, parseHexStringLoop]
    rw [if_neg hc.1, hc.2]
    simp only [Bool.false_eq_true, if_false, List.append_eq]
    rw [ih (fun x hx => hd x (by simp [hx]))]
    simp

theorem hexSerialize_digits {b : List Nat} (hb : ∀ x ∈ b, x < 256) :
    ∀ c ∈ hexSerialize b, (fromHexDigit c).isSome := by
  induction b with
  | nil => simp [hexSerialize]
  | cons x xs ih =>
    have hx : x < 256 := hb x (by simp)
    have h1 : x / 16 < 16 := by omega
    have h2 : x % 16 < 16 := by omega
    intro c hc
    simp only [hexSerialize, List.mem_cons] at hc
    rcases hc with rfl | rfl | hc
    · rw [fromHexDigit_toHexDigit h1]; rfl
    · rw [fromHexDigit_toHexDigit h2]; rfl
    · exact ih (fun y hy => hb y (by simp [hy])) c hc

theorem hexDecodePairs_hexSerialize {b : List Nat} (hb : ∀ x ∈ b, x < 256) :
    hexDecodePairs (hexSerialize b) = b := by
  induction b with
  | nil => rfl
  | cons x xs ih =>
    have hx : x < 256 := hb x (by simp)
    have h1 : x / 16 < 16 := by omega
    have h2 : x % 16 < 16 := by omega
    simp only [hexSerialize, hexDecodePairs,
      fromHexDigit_toHexDigit h1, fromHexDigit_toHexDigit h2]
    rw [ih (fun y hy => hb y (by simp [hy]))]
    congr 1
    omega

theorem hexSerialize_length (b : List Nat) :
    (hexSerialize b).length = 2 * b.length := by
  induction b with
  | nil => rfl
  | cons x xs ih => simp [hexSerialize, ih]; ring

/-- C8: parsing the hex serialization of an (even-length) byte sequence
returns exactly that sequence, and an odd number of collected hex digits
is right-padded with `0` before pair decoding. -/
theorem parseHexString_roundtrip_and_odd_pad :
    (∀ b : List Nat, (∀ x ∈ b, x < 256) → b.length % 2 = 0 →
      parseHexString ('<' :: (hexSerialize b ++ ['>'])) = some (b, [])) ∧
    (∀ ds : List Char, (∀ c ∈ ds, (fromHexDigit c).isSome) → ds.length % 2 = 1 →
      parseHexString ('<' :: (ds ++ ['>'])) = some (hexDecodePairs (ds ++ ['0']), [])) := by
  constructor
  · intro b hb _
    simp only [parseHexString, List.drop_succ_cons, List.drop_zero]
    rw [parseHexStringLoop_digits (hexSerialize b) (hexSerialize_digits hb) [] []]
    simp only [List.nil_append, hexSerialize_length]
    rw [if_neg (by omega)]
    rw [hexDecodePairs_hexSerialize hb]
  · intro ds hds hodd
    simp only [parseHexString, List.drop_succ_cons, List.drop_zero]
    rw [parseHexStringLoop_digits ds hds [] []]
    simp only [List.nil_append]
    rw [if_pos hodd]

/-- Witness for C8 at concrete inputs. -/
theorem parseHexString_roundtrip_witness :
    parseHexString ('<' :: (hexSerialize [171, 205] ++ ['>'])) = some ([171, 205], []) ∧
    parseHexString ('<' :: (['a', 'b', 'c'] ++ ['>'])) =
      some (hexDecodePairs (['a', 'b', 'c'] ++ ['0']), []) := by
  refine ⟨parseHexString_roundtrip_and_odd_pad.1 [171, 205] ?_ ?_,
    parseHexString_roundtrip_and_odd_pad.2 ['a', 'b', 'c'] ?_ ?_⟩
  · intro x hx; simp at hx; rcases hx with rfl | rfl <;> decide
  · decide
  · intro c hc; simp at hc; rcases hc with rfl | rfl | rfl <;> decide
  · decide

/-- Result of `parseString`: the Go function returns the string collected
so far together with a possibly-nil error; `eof` is the error case. -/
inductive StrRes where
  | ok (s : List Char) (rest : List Char)
  | eof (s : List Char)
deriving DecidableEq, Repr

/-- Value of an octal digit string, as `strconv.ParseUint(s, 8, 32)` on a
string of octal digits. -/
def octValue (s : List Char) : Nat :=
  s.foldl (fun acc c => 8 * acc + (c.toNat - 48)) 0

/-- The character-collecting loop of `parseString` (core/parser.go):
balanced parentheses, the eight named escapes, octal escapes of up to
three digits, and any other escaped character silently dropped (the Go
`switch` has no default case).  The Go code reads the extra octal digits
through a two-byte `Peek` whose failure (fewer than two bytes left) makes
`parseString` return with an error; here the peeked bytes appear as the
nested patterns. -/
def parseStringLoop (acc : List Char) (depth : Nat) : List Char → StrRes
  | [] => .eof acc
  | '\\' :: rest =>
    match rest with
    | [] => .eof acc
    | c :: rest2 =>
      if IsOctalDigit c then
        match rest2 with
        | b1 :: b2 :: rest3 =>
          if IsOctalDigit b1 then
            if IsOctalDigit b2 then
              parseStringLoop (acc ++ [Char.ofNat (octValue [c, b1, b2] % 256)]) depth rest3
            else
              parseStringLoop (acc ++ [Char.ofNat (octValue [c, b1] % 256)]) depth (b2 :: rest3)
          else
            parseStringLoop (acc ++ [Char.ofNat (octValue [c] % 256)]) depth (b1 :: b2 :: rest3)
        | _ => .eof acc
      else if c = 'n' then parseStringLoop (acc ++ ['\n']) depth rest2
      else if c = 'r' then parseStringLoop (acc ++ [Char.ofNat 13]) depth rest2
      else if c = 't' then parseStringLoop (acc ++ ['\t']) depth rest2
      else if c = 'b' then parseStringLoop (acc ++ [Char.ofNat 8]) depth rest2
      else if c = 'f' then parseStringLoop (acc ++ [Char.ofNat 12]) depth rest2
      else if c = '(' then parseStringLoop (acc ++ ['(']) depth rest2
      else if c = ')' then parseStringLoop (acc ++ [')']) depth rest2
      else if c = '\\' then parseStringLoop (acc ++ ['\\']) depth rest2
      else parseStringLoop acc depth rest2
  | '(' :: rest => parseStringLoop (acc ++ ['(']) (depth + 1) rest
  | ')' :: rest =>
    if depth - 1 = 0 then .ok acc rest
    else parseStringLoop (acc ++ [')']) (depth - 1) rest
  | c :: rest => parseStringLoop (acc ++ [c]) depth rest

/-- `parseString` (core/parser.go): jump the opening `(` and run the
collecting loop with depth 1. -/
def parseString (input : List Char) : StrRes :=
  parseStringLoop [] 1 (input.drop 1)

/-- C10: an escaped character that is not one of the eight named escapes
and not an octal digit is dropped together with its backslash, e.g.
parsing the literal string input made of the five bytes a backslash z b
between parentheses yields the two-byte string ab. -/
theorem parseString_unknown_escape_dropped :
    (∀ (c : Char) (acc rest : List Char) (depth : Nat),
      IsOctalDigit c = false →
      c ∉ ['n', 'r', 't', 'b', 'f', '(', ')', '\\'] →
      parseStringLoop acc depth ('\\' :: c :: rest) = parseStringLoop acc depth rest) ∧
    parseString ('(' :: 'a' :: '\\' :: 'z' :: 'b' :: [')']) = .ok ['a', 'b'] [] := by
  constructor
  · intro c acc rest depth hoct hmem
    simp only [List.mem_cons, not_or] at hmem
    obtain ⟨h1, h2, h3, h4, h5, h6, h7, h8, _⟩ := hmem
    rw [parseStringLoop.eq_def]
    simp only [hoct, Bool.false_eq_true, if_false,
      if_neg h1, if_neg h2, if_neg h3, if_neg h4, if_neg h5, if_neg h6,
      if_neg h7, if_neg h8]
  · rfl

/-- Witness for C10's universally quantified conjunct, at c = z. -/
theorem parseString_unknown_escape_dropped_witness :
    parseStringLoop [] 1 ('\\' :: 'z' :: 'b' :: [')']) =
      parseStringLoop [] 1 ('b' :: [')']) :=
  parseString_unknown_escape_dropped.1 'z' [] ('b' :: [')']) 1 (by decide) (by decide)

/-- The PDF object variant of the core package (`PdfObjectName`,
`PdfObjectString`, `PdfObjectInteger`, `PdfObjectFloat`, `PdfObjectBool`,
`PdfObjectNull`, `PdfObjectArray`, `PdfObjectDictionary`,
`PdfObjectReference`).  Reals carry exact rationals: the embedded code
only ever parses and stores them. -/
inductive PdfObject where
  | name (s : List Char)
  | str (s : List Char)
  | int (i : Int)
  | real (q : Rat)
  | boolean (b : Bool)
  | null
  | array (xs : List PdfObject)
  | dict (xs : List (List Char × PdfObject))
  | ref (objNum gen : Int)

/-- `PdfObjectDictionary.Set`: dictionaries are insertion-ordered, a
second `Set` of the same key updates in place. -/
def dictSet (d : List (List Char × PdfObject)) (k : List Char) (v : PdfObject) :
    List (List Char × PdfObject) :=
  match d with
  | [] => [(k, v)]
  | (k', v') :: rest => if k' = k then (k, v) :: rest else (k', v') :: dictSet rest k v

/-- Association lookup in an embedded dictionary. -/
def dictGet (d : List (List Char × PdfObject)) (k : List Char) : Option PdfObject :=
  match d with
  | [] => none
  | (k', v') :: rest => if k' = k then some v' else dictGet rest k

/-- Result of `parseName`: the Go function returns a name and an error
that is nil on success (the EOF error inside the name loop discards the
partial name; the `#`-escape errors keep it). -/
inductive NameRes where
  | ok (name rest : List Char)
  | err (name rest : List Char)
deriving DecidableEq, Repr

/-- First loop of `parseName` (core/parser.go): bytes are discarded until
a `/` appears; EOF is an error. -/
def parseNameFindSlash : List Char → Option (List Char)
  | [] => none
  | c :: rest => if c = '/' then some rest else parseNameFindSlash rest

/-- The name delimiters of `parseName`'s `switch`. -/
def isNameDelim (c : Char) : Bool :=
  c = '/' || c = '{' || c = '}' || c = '[' || c = ']' ||
  c = '(' || c = ')' || c = '<' || c = '>' || c = '%'

/-- Second loop of `parseName`: regular bytes are accumulated, whitespace
ends the name (consumed), a delimiter ends it (pushed back), `#` eats two
bytes as a hex escape.  The Go code checks the stale first-read error
after the second `ReadByte` of an escape, so a missing second byte decodes
a NUL byte and fails in `hex.DecodeString` instead. -/
def parseNameLoop (acc : List Char) : List Char → NameRes
  | [] => .err [] []
  | c :: rest =>
    if IsWhiteSpace c then .ok acc rest
    else if isNameDelim c then .ok acc (c :: rest)
    else if c = '#' then
      match rest with
      | [] => .err acc []
      | [_] => .err acc []
      | b1 :: b2 :: rest2 =>
        match fromHexDigit b1, fromHexDigit b2 with
        | some h, some l => parseNameLoop (acc ++ [Char.ofNat (h * 16 + l)]) rest2
        | _, _ => .err acc rest2
    else parseNameLoop (acc ++ [c]) rest

/-- `parseName` (core/parser.go). -/
def parseName (input : List Char) : NameRes :=
  match parseNameFindSlash input with
  | none => .err [] []
  | some rest => parseNameLoop [] rest

/-- Character class of the first byte that routes `parseObject` to the
number/reference branch. -/
def isNumberStart (c : Char) : Bool :=
  c = '+' || c = '-' || c = '.' || IsDecimalDigit c

/-- Collecting loop of `parseNumber` (core/parser.go): signs only where
allowed, digits, `.` and `e` set the float flag, anything else (or EOF)
closes the token. -/
def parseNumberLoop (acc : List Char) (allowSigns isFloat : Bool) :
    List Char → List Char × Bool × List Char
  | [] => (acc, isFloat, [])
  | c :: rest =>
    if allowSigns && (c = '-' || c = '+') then
      parseNumberLoop (acc ++ [c]) false isFloat rest
    else if IsDecimalDigit c then
      parseNumberLoop (acc ++ [c]) allowSigns isFloat rest
    else if c = '.' then
      parseNumberLoop (acc ++ [c]) allowSigns true rest
    else if c = 'e' then
      parseNumberLoop (acc ++ [c]) true true rest
    else (acc, isFloat, c :: rest)

/-- Value of a nonempty decimal digit string. -/
def digitsVal (s : List Char) : Nat :=
  s.foldl (fun acc c => 10 * acc + (c.toNat - 48)) 0

/-- Go's `strconv.ParseInt(s, 10, 64)` on the collected token (64-bit
overflow is not modelled; the embedded inputs stay far below it). -/
def goParseInt (s : List Char) : Option Int :=
  match s with
  | '+' :: r => if r ≠ [] ∧ r.all IsDecimalDigit then some (digitsVal r) else none
  | '-' :: r => if r ≠ [] ∧ r.all IsDecimalDigit then some (-(digitsVal r : Int)) else none
  | r => if r ≠ [] ∧ r.all IsDecimalDigit then some (digitsVal r) else none

/-- Go's `strconv.ParseFloat` on the collected token, with the exact
rational value (float64 rounding is not modelled; no embedded claim
depends on it). -/
def goParseFloat (s : List Char) : Option Rat :=
  let (sign, s1) : Rat × List Char :=
    match s with
    | '+' :: r => (1, r)
    | '-' :: r => (-1, r)
    | r => (1, r)
  let ip := s1.takeWhile IsDecimalDigit
  let s2 := s1.drop ip.length
  let (fp, s3) : List Char × List Char :=
    match s2 with
    | '.' :: r => (r.takeWhile IsDecimalDigit, r.drop (r.takeWhile IsDecimalDigit).length)
    | r => ([], r)
  if ip = [] ∧ fp = [] then none
  else if (s2 ≠ [] ∧ s2.headD ' ' = '.') ∨ s2 = s3 then
    let mant : Rat := (digitsVal ip : Rat) + (digitsVal fp : Rat) / ((10 : Rat) ^ fp.length)
    match s3 with
    | [] => some (sign * mant)
    | 'e' :: r =>
      let (esign, r1) : Int × List Char :=
        match r with
        | '+' :: r2 => (1, r2)
        | '-' :: r2 => (-1, r2)
        | r2 => (1, r2)
      let ed := r1.takeWhile IsDecimalDigit
      if ed ≠ [] ∧ r1.drop ed.length = [] then
        some (sign * mant * (10 : Rat) ^ (esign * (digitsVal ed : Int)))
      else none
    | _ => none
  else none

/-- `parseNumber` (core/parser.go): collect the token, then hand it to
`strconv.ParseInt` or `strconv.ParseFloat`. -/
def parseNumber (input : List Char) : Except String (PdfObject × List Char) :=
  let (tok, isFloat, rest) := parseNumberLoop [] true false input
  if isFloat then
    match goParseFloat tok with
    | some q => .ok (.real q, rest)
    | none => .error "ParseFloat"
  else
    match goParseInt tok with
    | some i => .ok (.int i, rest)
    | none => .error "ParseInt"

/-- `parseNull` (core/parser.go): discard four bytes. -/
def parseNull (input : List Char) : Except String (PdfObject × List Char) :=
  if 4 ≤ input.length then .ok (.null, input.drop 4) else .error "Discard"

/-- `parseBool` (core/parser.go): read up to five bytes; `true` unreads
the last byte read (so exactly-four-bytes-left input loses a byte, as the
Go code does), `false` consumes all five. -/
def parseBool (input : List Char) : Except String (PdfObject × List Char) :=
  if input = [] then .error "Read"
  else
    let bb := input.take 5
    let n := bb.length
    if 4 ≤ n ∧ bb.take 4 = ['t', 'r', 'u', 'e'] then .ok (.boolean true, input.drop (n - 1))
    else if 5 ≤ n ∧ bb = ['f', 'a', 'l', 's', 'e'] then .ok (.boolean false, input.drop 5)
    else .error "Unexpected boolean string"

/-- The `\s` class of Go's regexp package. -/
def isRegexSpace (c : Char) : Bool :=
  c.toNat == 9 || c.toNat == 10 || c.toNat == 12 || c.toNat == 13 || c.toNat == 32

/-- Anchored match of `reReference`, the pattern whitespace, digits,
whitespace, digits, whitespace, R, on the 15-byte peek (the character
classes are disjoint, so the greedy match is deterministic). -/
def goRefMatch (s : List Char) : Bool :=
  let s1 := s.dropWhile isRegexSpace
  let d1 := s1.takeWhile IsDecimalDigit
  let s2 := s1.drop d1.length
  let w1 := s2.takeWhile isRegexSpace
  let s3 := s2.drop w1.length
  let d2 := s3.takeWhile IsDecimalDigit
  let s4 := s3.drop d2.length
  let w2 := s4.takeWhile isRegexSpace
  let s5 := s4.drop w2.length
  decide (d1 ≠ []) && decide (w1 ≠ []) && decide (d2 ≠ []) && decide (w2 ≠ []) &&
    s5.headD ' ' == 'R'

/-- Anchored match of `reNumeric`, a star over plus, minus, dot followed
by one or more of digit-or-dot: with backtracking this succeeds exactly
when the leading sign-dot prefix contains a dot, or the first character
after it is a digit. -/
def goNumMatch (s : List Char) : Bool :=
  let star := s.takeWhile (fun c => c = '+' || c = '-' || c = '.')
  star.contains '.' || IsDecimalDigit ((s.drop star.length).headD ' ')

/-- Anchored match of `reExponential`.  Whenever `goNumMatch` fails this
fails too, and `parseObject` calls `parseNumber` on either match, so the
backtracking refinements of the real engine are behaviourally inert. -/
def goExpMatch (s : List Char) : Bool :=
  let star := s.takeWhile (fun c => c = '+' || c = '-' || c = '.')
  let s1 := s.drop star.length
  let d1 := s1.takeWhile (fun c => IsDecimalDigit c || c = '.')
  let s2 := s1.drop d1.length
  decide (d1 ≠ []) && s2.headD ' ' == 'e'

/-- `reader.ReadBytes` through the first `R`, as `parseObject` uses it
once `reReference` matched the peek; without an `R` the whole input is
consumed (the Go code drops the error). -/
def takeThroughR : List Char → List Char × List Char
  | [] => ([], [])
  | c :: rest =>
    if c = 'R' then (['R'], rest)
    else
      let (a, b) := takeThroughR rest
      (c :: a, b)

/-- `parseReference` (core/parser.go): re-run the reference pattern over
the consumed bytes and read the two numbers with `strconv.Atoi`. -/
def goParseReference (s : List Char) : Option (Int × Int) :=
  let s1 := s.dropWhile isRegexSpace
  let d1 := s1.takeWhile IsDecimalDigit
  let s2 := s1.drop d1.length
  let w1 := s2.takeWhile isRegexSpace
  let s3 := s2.drop w1.length
  let d2 := s3.takeWhile IsDecimalDigit
  let s4 := s3.drop d2.length
  let w2 := s4.takeWhile isRegexSpace
  let s5 := s4.drop w2.length
  if d1 ≠ [] ∧ w1 ≠ [] ∧ d2 ≠ [] ∧ w2 ≠ [] ∧ s5.headD ' ' = 'R' then
    some ((digitsVal d1 : Int), (digitsVal d2 : Int))
  else none

/-- The spaces-then-comment-lines skipper `skipComments`
(core/parser.go); a comment runs to the next CR or LF, which stays in the
stream and is eaten by the recursive call's `skipSpaces`. -/
def skipCommentLine : List Char → List Char
  | [] => []
  | c :: rest => if c.toNat = 13 ∨ c.toNat = 10 then c :: rest else skipCommentLine rest

/-- `skipComments` (core/parser.go), with read errors at EOF flattened to
an empty remainder (the dictionary loop ignores its return value). -/
def skipComments (s : List Char) : List Char :=
  let s1 := s.dropWhile (fun c => IsWhiteSpace c)
  match h : s1 with
  | '%' :: rest => skipComments (skipCommentLine rest)
  | _ => s1
termination_by s.length
decreasing_by
  have hdw : ∀ (l : List Char), (l.dropWhile (fun c => IsWhiteSpace c)).length ≤ l.length := by
    intro l
    induction l with
    | nil => simp
    | cons c cs ih =>
      rw [List.dropWhile]
      split
      · simp only [List.length_cons]; omega
      · simp
  have h1 : s1.length ≤ s.length := hdw s
  have h2 : (skipCommentLine rest).length ≤ rest.length := by
    clear h1 h
    induction rest with
    | nil => simp [skipCommentLine]
    | cons c cs ih =>
      rw [skipCommentLine]
      split
      · simp
      · simp only [List.length_cons]; omega
  rw [h] at h1
  simp only [List.length_cons] at h1
  omega

/-- Suffix test for the dictionary-key null bug: Go's
`keyName[len(keyName)-4:] == "null"`. -/
def endsWithNull (k : List Char) : Bool :=
  k.drop (k.length - 4) == ['n', 'u', 'l', 'l']

mutual

/-- `parseObject` (core/parser.go): peek two bytes (an error when fewer
remain) and dispatch on the first.  The number branch peeks fifteen bytes
and prefers an indirect reference, then a plain number, then an
exponential number (the Go code calls `parseNumber` for either number
match).  The fuel argument only bounds the mutual nesting of containers;
every theorem quantifies over it or fixes it large enough. -/
def parseObjectF : Nat → List Char → Except String (PdfObject × List Char)
  | 0, _ => .error "fuel"
  | fuel + 1, input =>
    if input.length < 2 then .error "Object parsing error, no content to peek"
    else
      match input with
      | [] => .error "Object parsing error, no content to peek"
      | c :: _ =>
        if c = '/' then
          match parseName input with
          | .ok n rest => .ok (.name n, rest)
          | .err _ _ => .error "name"
        else if c = '<' then
          if (input.drop 1).headD ' ' = '<' then parseDictF fuel input
          else
            match parseHexString input with
            | some (bs, rest) => .ok (.str (bs.map Char.ofNat), rest)
            | none => .error "hex"
        else if c = '(' then
          match parseString input with
          | .ok s rest => .ok (.str s, rest)
          | .eof _ => .error "string"
        else if c = 'f' ∨ c = 't' then parseBool input
        else if c = '[' then parseArrayF fuel input
        else if c = 'n' then parseNull input
        else if isNumberStart c then
          let peekStr := input.take 15
          if goRefMatch peekStr then
            let (consumed, rest) := takeThroughR input
            match goParseReference consumed with
            | some (n, g) => .ok (.ref n g, rest)
            | none => .error "Unable to parse reference"
          else if goNumMatch peekStr then parseNumber input
          else if goExpMatch peekStr then parseNumber input
          else .error "Object parsing error - unexpected pattern"
        else .error "Object parsing error - unexpected pattern"

/-- `ParseDict` (core/parser.go): consume the two `<` bytes one at a time
(a missing byte reads as NUL and fails the comparison) and run the
key/value loop. -/
def parseDictF : Nat → List Char → Except String (PdfObject × List Char)
  | 0, _ => .error "fuel"
  | fuel + 1, input =>
    if input.headD (Char.ofNat 0) ≠ '<' then .error "Invalid dict"
    else if (input.drop 1).headD (Char.ofNat 0) ≠ '<' then .error "Invalid dict"
    else parseDictLoopF fuel (Char.ofNat 0) true false [] [] (input.drop 2)

/-- The key/value loop of `ParseDict`, with the Go locals `prevCh`,
`readingKey`, `readingValue`, `keyName` and the dictionary built so far.
A key whose name is longer than four characters and ends in `null` is
truncated and bound to `Null` immediately (the known writer bug), and the
loop goes back to reading a key. -/
def parseDictLoopF : Nat → Char → Bool → Bool → List Char →
    List (List Char × PdfObject) → List Char → Except String (PdfObject × List Char)
  | 0, _, _, _, _, _, _ => .error "fuel"
  | fuel + 1, prevCh, readingKey, readingValue, keyName, dict, input =>
    match input with
    | [] => .error "eof"
    | currCh :: rest =>
      if prevCh = '>' ∧ currCh = '>' then .ok (.dict dict, rest)
      else if currCh = '%' then
        parseDictLoopF fuel currCh readingKey readingValue keyName dict
          (skipComments (currCh :: rest))
      else if currCh = '/' ∧ readingKey then
        match parseName (currCh :: rest) with
        | .err _ _ => .error "name"
        | .ok keyName' rest2 =>
          if keyName'.length > 4 ∧ endsWithNull keyName' then
            parseDictLoopF fuel currCh true false keyName'
              (dictSet dict (keyName'.take (keyName'.length - 4)) .null) rest2
          else parseDictLoopF fuel currCh false true keyName' dict rest2
      else if readingValue ∧ ¬(IsWhiteSpace currCh = true) then
        match parseObjectF fuel (currCh :: rest) with
        | .error e => .error e
        | .ok (val, rest2) =>
          parseDictLoopF fuel currCh true false keyName (dictSet dict keyName val) rest2
      else parseDictLoopF fuel currCh readingKey readingValue keyName dict rest

/-- `parseArray` (core/parser.go): skip the `[`, then alternate
whitespace skipping and `parseObject` until `]`. -/
def parseArrayF : Nat → List Char → Except String (PdfObject × List Char)
  | 0, _ => .error "fuel"
  | fuel + 1, input => parseArrayLoopF fuel [] (input.drop 1)

/-- Element loop of `parseArray`. -/
def parseArrayLoopF : Nat → List PdfObject → List Char →
    Except String (PdfObject × List Char)
  | 0, _, _ => .error "fuel"
  | fuel + 1, acc, input =>
    match input with
    | [] => .error "eof"
    | c :: rest =>
      if IsWhiteSpace c then parseArrayLoopF fuel acc rest
      else if c = ']' then .ok (.array acc, rest)
      else
        match parseObjectF fuel (c :: rest) with
        | .error e => .error e
        | .ok (obj, rest2) => parseArrayLoopF fuel (acc ++ [obj]) rest2

end

/-- A name byte that `parseName` accumulates unchanged: not whitespace,
not a delimiter, not the `#` escape. -/
def isRegularNameChar (c : Char) : Bool :=
  !IsWhiteSpace c && !isNameDelim c && !(c = '#')

theorem parseName_cons (xs : List Char) :
    parseName ('/' :: xs) = parseNameLoop [] xs := by
  simp [parseName, parseNameFindSlash]

theorem parseNameLoop_regular_space {k : List Char}
    (hk : ∀ c ∈ k, isRegularNameChar c = true) (acc rest : List Char) :
    parseNameLoop acc (k ++ ' ' :: rest) = .ok (acc ++ k) rest := by
  induction k generalizing acc with
  | nil =>
    rw [List.nil_append, parseNameLoop.eq_def]
    simp [show IsWhiteSpace ' ' = true from by decide]
  | cons c cs ih =>
    have hc : isRegularNameChar c = true := hk c (by simp)
    simp only [isRegularNameChar, Bool.and_eq_true, Bool.not_eq_true',
      decide_eq_true_eq] at hc
    obtain ⟨⟨hws, hdelim⟩, hhash⟩ := hc
    have hne : ¬(c = '#') := of_decide_eq_false hhash
    rw [List.cons_append, parseNameLoop.eq_def]
    simp only [hws, hdelim, Bool.false_eq_true, if_false, if_neg hne]
    rw [ih (fun x hx => hk x (by simp [hx]))]
    simp

theorem parseNameLoop_regular_delim {k : List Char}
    (hk : ∀ c ∈ k, isRegularNameChar c = true) {d : Char}
    (hd : isNameDelim d = true) (hdws : IsWhiteSpace d = false) (acc rest : List Char) :
    parseNameLoop acc (k ++ d :: rest) = .ok (acc ++ k) (d :: rest) := by
  induction k generalizing acc with
  | nil =>
    rw [List.nil_append, parseNameLoop.eq_def]
    simp [hdws, hd]
  | cons c cs ih =>
    have hc : isRegularNameChar c = true := hk c (by simp)
    simp only [isRegularNameChar, Bool.and_eq_true, Bool.not_eq_true',
      decide_eq_true_eq] at hc
    obtain ⟨⟨hws, hdelim⟩, hhash⟩ := hc
    have hne : ¬(c = '#') := of_decide_eq_false hhash
    rw [List.cons_append, parseNameLoop.eq_def]
    simp only [hws, hdelim, Bool.false_eq_true, if_false, if_neg hne]
    rw [ih (fun x hx => hk x (by simp [hx]))]
    simp

theorem endsWithNull_append (p : List Char) :
    endsWithNull (p ++ ['n', 'u', 'l', 'l']) = true := by
  simp only [endsWithNull, List.length_append, List.length_cons, List.length_nil]
  have h4 : p.length + 4 - 4 = p.length := by omega
  rw [show p.length + (0 + 1 + 1 + 1 + 1) = p.length + 4 from by omega, h4, List.drop_left]
  decide

/-- C5 counterexample: parsing the dictionary with the single entry
`/Boundsnull 5` stores the truncated key `Bounds` bound to `Null` even
though a value follows; `Boundsnull` neither keeps its name nor receives
the `5`, which is skipped byte-by-byte. -/
theorem parseDict_null_key_counterexample :
    parseDictF 32 ("<</Boundsnull 5>>".toList) =
      .ok (.dict [("Bounds".toList, .null)], []) ∧
    dictGet [("Bounds".toList, .null)] ("Boundsnull".toList) = none ∧
    dictGet [("Bounds".toList, .null)] ("Bounds".toList) = some .null :=
  ⟨rfl, rfl, rfl⟩

/-- C5 (amended): for every key name made of regular bytes that is longer
than four characters and ends in `null`, `ParseDict` truncates the key
and stores `Null` for it unconditionally, whether a value follows before
the next token (first conjunct, the value `5` is dropped) or not (second
conjunct). -/
theorem parseDict_null_suffix_truncated (p : List Char) (fuel : Nat)
    (hp : p ≠ []) (hreg : ∀ c ∈ p, isRegularNameChar c = true) :
    parseDictF (fuel + 5)
        ('<' :: '<' :: '/' :: ((p ++ ['n', 'u', 'l', 'l']) ++ ' ' :: '5' :: '>' :: '>' :: [])) =
      .ok (.dict [(p, .null)], []) ∧
    parseDictF (fuel + 4)
        ('<' :: '<' :: '/' :: ((p ++ ['n', 'u', 'l', 'l']) ++ '>' :: '>' :: [])) =
      .ok (.dict [(p, .null)], []) := by
  have hk : ∀ c ∈ p ++ ['n', 'u', 'l', 'l'], isRegularNameChar c = true := by
    intro c hc
    rcases List.mem_append.mp hc with h | h
    · exact hreg c h
    · simp only [List.mem_cons, List.not_mem_nil, or_false] at h
      rcases h with rfl | rfl | rfl | rfl <;> decide
  have hlen : (p ++ ['n', 'u', 'l', 'l']).length = p.length + 4 := by simp
  have htake : (p ++ ['n', 'u', 'l', 'l']).take ((p ++ ['n', 'u', 'l', 'l']).length - 4) = p := by
    rw [hlen]
    have h4 : p.length + 4 - 4 = p.length := by omega
    rw [h4, List.take_left]
  have hgt : (p ++ ['n', 'u', 'l', 'l']).length > 4 := by
    rw [hlen]
    have : p.length ≠ 0 := fun h => hp (List.eq_nil_of_length_eq_zero h)
    omega
  constructor
  · show parseDictF ((fuel + 4) + 1) _ = _
    rw [parseDictF]
    rw [if_neg (by simp), if_neg (by simp)]
    simp only [List.drop_succ_cons, List.drop_zero]
    show parseDictLoopF ((fuel + 3) + 1) _ _ _ _ _ _ = _
    rw [parseDictLoopF]
    rw [if_neg (by decide), if_neg (by decide), if_pos (by decide)]
    have hname : parseName
        ('/' :: ((p ++ ['n', 'u', 'l', 'l']) ++ ' ' :: '5' :: '>' :: '>' :: [])) =
        .ok (p ++ ['n', 'u', 'l', 'l']) ('5' :: '>' :: '>' :: []) := by
      rw [parseName_cons, parseNameLoop_regular_space hk]
      simp
    simp only [hname]
    rw [if_pos ⟨hgt, endsWithNull_append p⟩, htake]
    show parseDictLoopF ((fuel + 2) + 1) _ _ _ _ _ _ = _
    rw [parseDictLoopF]
    rw [if_neg (by decide), if_neg (by decide), if_neg (by decide), if_neg (by decide)]
    show parseDictLoopF ((fuel + 1) + 1) _ _ _ _ _ _ = _
    rw [parseDictLoopF]
    rw [if_neg (by decide), if_neg (by decide), if_neg (by decide), if_neg (by decide)]
    show parseDictLoopF (fuel + 1) _ _ _ _ _ _ = _
    rw [parseDictLoopF]
    rw [if_pos (by decide)]
    rfl
  · show parseDictF ((fuel + 3) + 1) _ = _
    rw [parseDictF]
    rw [if_neg (by simp), if_neg (by simp)]
    simp only [List.drop_succ_cons, List.drop_zero]
    show parseDictLoopF ((fuel + 2) + 1) _ _ _ _ _ _ = _
    rw [parseDictLoopF]
    rw [if_neg (by decide), if_neg (by decide), if_pos (by decide)]
    have hname : parseName ('/' :: ((p ++ ['n', 'u', 'l', 'l']) ++ '>' :: '>' :: [])) =
        .ok (p ++ ['n', 'u', 'l', 'l']) ('>' :: '>' :: []) := by
      rw [parseName_cons, parseNameLoop_regular_delim hk (by decide) (by decide)]
      simp
    simp only [hname]
    rw [if_pos ⟨hgt, endsWithNull_append p⟩, htake]
    show parseDictLoopF ((fuel + 1) + 1) _ _ _ _ _ _ = _
    rw [parseDictLoopF]
    rw [if_neg (by decide), if_neg (by decide), if_neg (by decide), if_neg (by decide)]
    show parseDictLoopF (fuel + 1) _ _ _ _ _ _ = _
    rw [parseDictLoopF]
    rw [if_pos (by decide)]
    rfl

/-- Witness for C5's amended theorem at the key Boundsnull. -/
theorem parseDict_null_suffix_truncated_witness :
    parseDictF 5
        ('<' :: '<' :: '/' :: (("Bounds".toList ++ ['n', 'u', 'l', 'l']) ++
          ' ' :: '5' :: '>' :: '>' :: [])) =
      .ok (.dict [("Bounds".toList, .null)], []) :=
  (parseDict_null_suffix_truncated ("Bounds".toList) 0 (by decide)
    (by intro c hc; fin_cases hc <;> decide)).1

/-- Anchored attempt of Go's `reStartXref` pattern, literal start, then
optional x, then ref, then optional regex whitespace, then one or more
digits, at the head of the input; returns the digit group.  The greedy
optional x is deterministic because a successful x branch and a
successful empty branch cannot coexist at one position. -/
def startxrefMatchAt (s : List Char) : Option (List Char) :=
  match s with
  | 's' :: 't' :: 'a' :: 'r' :: 't' :: r0 =>
    let r1 : Option (List Char) :=
      match r0 with
      | 'x' :: 'r' :: 'e' :: 'f' :: rest => some rest
      | 'r' :: 'e' :: 'f' :: rest => some rest
      | _ => none
    match r1 with
    | none => none
    | some r2 =>
      let r3 := r2.dropWhile isRegexSpace
      let ds := r3.takeWhile IsDecimalDigit
      if ds = [] then none else some ds
  | _ => none

/-- Leftmost match of `reStartXref`, the semantics of Go's
`FindStringSubmatch`: scan positions left to right and return the first
digit group that matches. -/
def goFindStartxref : List Char → Option (List Char)
  | [] => none
  | c :: rest =>
    match startxrefMatchAt (c :: rest) with
    | some ds => some ds
    | none => goFindStartxref rest

/-- Errors of the startxref locating stage of `readReferenceData`. -/
inductive XrefErr where
  | seekErr
  | startxrefNotFound
  | multipleStartxref
deriving DecidableEq, Repr

/-- Branching of `readReferenceData` on the slice returned by
`FindStringSubmatch`: the slice is the full match plus the one capture
group whenever a match exists (length two), and empty otherwise, and the
Go code tests its length against 2 on both sides. -/
def readStartxrefResult (found : Option (List Char)) : Except XrefErr Int :=
  let result : List (List Char) :=
    match found with
    | some ds => [ds, ds]
    | none => []
  if result.length < 2 then .error .startxrefNotFound
  else if result.length > 2 then .error .multipleStartxref
  else
    match found with
    | some ds => .ok (digitsVal ds : Int)
    | none => .error .startxrefNotFound

/-- The startxref locating stage of `readReferenceData`
(core/parser.go): seek 32 bytes back from the end (an error on shorter
files), read the window and branch on the match result. -/
def readStartxref (file : List Char) : Except XrefErr Int :=
  if file.length < 32 then .error .seekErr
  else readStartxrefResult (goFindStartxref (file.drop (file.length - 32)))

/-- The concrete 32-byte end-of-file window holding two startxref
matches. -/
def doubleStartxrefWindow : List Char :=
  "startxref 10 startxref 20 aaaaaa".toList

/-- C6 counterexample: on a 32-byte window containing the two matches
startxref 10 and startxref 20, reference-data loading succeeds with the
first value 10; the last match does not win and no multiple-match error
is raised. -/
theorem readStartxref_counterexample :
    doubleStartxrefWindow.length = 32 ∧
    readStartxref doubleStartxrefWindow = .ok 10 ∧
    (Except.ok 10 : Except XrefErr Int) ≠ .ok 20 ∧
    (Except.ok 10 : Except XrefErr Int) ≠ .error .multipleStartxref := by
  refine ⟨rfl, rfl, fun hc => ?_, fun hc => Except.noConfusion hc⟩
  injection hc with h2
  exact absurd h2 (by decide)

/-- C6 (amended): the startxref search takes the leftmost match in the
32-byte window and never reports a multiple-match error, because the
submatch slice of a successful match always has length two, which the
dead guard compares against. -/
theorem readStartxref_leftmost_match (file : List Char) (h : 32 ≤ file.length) :
    readStartxref file =
      (match goFindStartxref (file.drop (file.length - 32)) with
       | some ds => .ok (digitsVal ds : Int)
       | none => .error .startxrefNotFound) ∧
    readStartxref file ≠ .error .multipleStartxref := by
  unfold readStartxref
  rw [if_neg (by omega)]
  cases hf : goFindStartxref (file.drop (file.length - 32)) with
  | none => exact ⟨rfl, fun hc => by injection hc with h2; exact absurd h2 (by decide)⟩
  | some ds => exact ⟨rfl, fun hc => Except.noConfusion hc⟩

/-- Witness for C6's amended theorem at the double-match window. -/
theorem readStartxref_leftmost_match_witness :
    readStartxref doubleStartxrefWindow =
      (match goFindStartxref (doubleStartxrefWindow.drop
          (doubleStartxrefWindow.length - 32)) with
       | some ds => .ok (digitsVal ds : Int)
       | none => .error .startxrefNotFound) ∧
    readStartxref doubleStartxrefWindow ≠ .error .multipleStartxref :=
  readStartxref_leftmost_match doubleStartxrefWindow (by decide)

/-- An xref table entry: `XrefObject` of the core package, keyed by its
object number in the table; `inUse` is `XREF_TABLE_ENTRY`, `objStream`
is `XREF_OBJECT_STREAM` (whose `generation` field stays at the Go zero
value). -/
inductive XrefEntry where
  | inUse (offset : Int) (generation : Int)
  | objStream (osObjNumber osObjIndex : Int)
deriving DecidableEq, Repr

/-- The `generation` field an entry carries in the Go struct. -/
def genOf : XrefEntry → Int
  | .inUse _ g => g
  | .objStream _ _ => 0

/-- The xref map `parser.xrefs`. -/
def XrefTable := List (Int × XrefEntry)

/-- Go map read. -/
def xrefLookup : XrefTable → Int → Option XrefEntry
  | [], _ => none
  | (n, e) :: rest, m => if n = m then some e else xrefLookup rest m

/-- Go map assignment. -/
def xrefStore : XrefTable → Int → XrefEntry → XrefTable
  | [], n, e => [(n, e)]
  | (n', e') :: rest, n, e =>
    if n' = n then (n, e) :: rest else (n', e') :: xrefStore rest n e

/-- The shared store idiom of both xref loaders: assign the in-use entry
when the object is absent or the recorded generation is strictly older
(the Go line checking not-ok or gen greater than the recorded
generation). -/
def storeInUseIfNewer (t : XrefTable) (n off g : Int) : XrefTable :=
  match xrefLookup t n with
  | none => xrefStore t n (.inUse off g)
  | some x => if g > genOf x then xrefStore t n (.inUse off g) else t

/-- The type-2 store idiom of `readXrefStream`: assign the compressed
entry only when the object is absent. -/
def storeObjStreamIfAbsent (t : XrefTable) (n o i : Int) : XrefTable :=
  match xrefLookup t n with
  | none => xrefStore t n (.objStream o i)
  | some _ => t

/-- One `n`/`f` entry of a classic xref subsection (readXrefTable,
core/parser.go): stored only when the type letter lowers to n and the
offset exceeds 1. -/
def readXrefTableEntry (xrefs : XrefTable) (curObjIdx : Int) (first : Int)
    (gen : Int) (third : Char) : XrefTable :=
  if third.toLower = 'n' ∧ first > 1 then storeInUseIfNewer xrefs curObjIdx first gen
  else xrefs

/-- One decoded row of a compressed xref stream (readXrefStream,
core/parser.go): a zero first W width forces type 1; type 1 stores an
in-use entry with no offset check; type 2 stores a compressed entry only
when the object is absent; other types are skipped. -/
def readXrefStreamEntry (xrefs : XrefTable) (objNum : Int) (ftype0 n2 n3 : Int)
    (w0 : Int) : XrefTable :=
  let ftype := if w0 = 0 then 1 else ftype0
  if ftype = 0 then xrefs
  else if ftype = 1 then storeInUseIfNewer xrefs objNum n2 n3
  else if ftype = 2 then storeObjStreamIfAbsent xrefs objNum n2 n3
  else xrefs

theorem xrefLookup_xrefStore (t : XrefTable) (n : Int) (e : XrefEntry) (m : Int) :
    xrefLookup (xrefStore t n e) m = if n = m then some e else xrefLookup t m := by
  induction t with
  | nil => simp [xrefStore, xrefLookup]
  | cons p rest ih =>
    obtain ⟨n', e'⟩ := p
    by_cases h : n' = n
    · subst h
      simp only [xrefStore, if_pos rfl, xrefLookup]
      by_cases h2 : n' = m <;> simp [h2]
    · simp only [xrefStore, if_neg h, xrefLookup, ih]
      by_cases h2 : n' = m
      · subst h2
        have hn : ¬(n = n') := fun hc => h hc.symm
        simp [hn]
      · simp [h2]

theorem storeInUseIfNewer_changed {t : XrefTable} {n off g m : Int}
    (hne : xrefLookup (storeInUseIfNewer t n off g) m ≠ xrefLookup t m) :
    m = n ∧ (xrefLookup t n = none ∨ ∃ e₀, xrefLookup t n = some e₀ ∧ g > genOf e₀) := by
  unfold storeInUseIfNewer at hne
  split at hne
  · rename_i hl
    rw [xrefLookup_xrefStore] at hne
    by_cases hm : n = m
    · exact ⟨hm.symm, Or.inl hl⟩
    · rw [if_neg hm] at hne
      exact absurd rfl hne
  · rename_i x hl
    split_ifs at hne with hg
    · rw [xrefLookup_xrefStore] at hne
      by_cases hm : n = m
      · exact ⟨hm.symm, Or.inr ⟨x, hl, hg⟩⟩
      · rw [if_neg hm] at hne
        exact absurd rfl hne
    · exact absurd rfl hne

theorem storeInUseIfNewer_preserves {t : XrefTable} {n off g m : Int}
    {e : XrefEntry} (he : xrefLookup t m = some e) :
    xrefLookup (storeInUseIfNewer t n off g) m = some e ∨
      ∃ e', xrefLookup (storeInUseIfNewer t n off g) m = some e' ∧
        genOf e' > genOf e := by
  unfold storeInUseIfNewer
  split
  · rename_i hl
    rw [xrefLookup_xrefStore]
    by_cases hm : n = m
    · subst hm
      rw [hl] at he
      exact absurd he (by simp)
    · rw [if_neg hm]
      exact Or.inl he
  · rename_i x hl
    split_ifs with hg
    · rw [xrefLookup_xrefStore]
      by_cases hm : n = m
      · subst hm
        rw [hl] at he
        injection he with he'
        subst he'
        exact Or.inr ⟨.inUse off g, by rw [if_pos rfl], hg⟩
      · rw [if_neg hm]
        exact Or.inl he
    · exact Or.inl he

theorem storeObjStreamIfAbsent_preserves {t : XrefTable} {n o i m : Int}
    {e : XrefEntry} (he : xrefLookup t m = some e) :
    xrefLookup (storeObjStreamIfAbsent t n o i) m = some e := by
  unfold storeObjStreamIfAbsent
  split
  · rename_i hl
    rw [xrefLookup_xrefStore]
    by_cases hm : n = m
    · subst hm
      rw [hl] at he
      exact absurd he (by simp)
    · rw [if_neg hm]
      exact he
  · exact he

/-- C7 counterexample: processing one type-1 row of a compressed xref
stream with offset 0 stores the in-use entry into an empty table, though
the offset is not greater than 1; the offset guard exists only on the
classic-table path. -/
theorem readXrefStreamEntry_counterexample :
    xrefLookup (readXrefStreamEntry [] 5 1 0 0 1) 5 = some (.inUse 0 0) ∧
    ¬((0 : Int) > 1) :=
  ⟨rfl, by decide⟩

/-- C7 (amended): a classic-table entry is stored only when its letter is
n, its offset exceeds 1 and any prior entry has strictly older
generation (first conjunct); on both the classic path and the compressed
xref stream path, an already-recorded entry of equal or newer generation
is never overwritten, a replacement always carrying a strictly newer
generation (second and third conjuncts); the stream path performs no
offset check. -/
theorem xref_entry_store_invariant :
    (∀ (t : XrefTable) (n first gen : Int) (third : Char) (m : Int),
      xrefLookup (readXrefTableEntry t n first gen third) m ≠ xrefLookup t m →
      m = n ∧ third.toLower = 'n' ∧ first > 1 ∧
        (xrefLookup t n = none ∨ ∃ e₀, xrefLookup t n = some e₀ ∧ gen > genOf e₀)) ∧
    (∀ (t : XrefTable) (n first gen : Int) (third : Char) (m : Int) (e : XrefEntry),
      xrefLookup t m = some e →
      xrefLookup (readXrefTableEntry t n first gen third) m = some e ∨
        ∃ e', xrefLookup (readXrefTableEntry t n first gen third) m = some e' ∧
          genOf e' > genOf e) ∧
    (∀ (t : XrefTable) (n ftype0 n2 n3 w0 : Int) (m : Int) (e : XrefEntry),
      xrefLookup t m = some e →
      xrefLookup (readXrefStreamEntry t n ftype0 n2 n3 w0) m = some e ∨
        ∃ e', xrefLookup (readXrefStreamEntry t n ftype0 n2 n3 w0) m = some e' ∧
          genOf e' > genOf e) := by
  refine ⟨?_, ?_, ?_⟩
  · intro t n first gen third m hne
    unfold readXrefTableEntry at hne
    by_cases h1 : third.toLower = 'n' ∧ first > 1
    · rw [if_pos h1] at hne
      obtain ⟨hm, hrest⟩ := storeInUseIfNewer_changed hne
      exact ⟨hm, h1.1, h1.2, hrest⟩
    · rw [if_neg h1] at hne
      exact absurd rfl hne
  · intro t n first gen third m e he
    unfold readXrefTableEntry
    by_cases h1 : third.toLower = 'n' ∧ first > 1
    · rw [if_pos h1]
      exact storeInUseIfNewer_preserves he
    · rw [if_neg h1]
      exact Or.inl he
  · intro t n ftype0 n2 n3 w0 m e he
    unfold readXrefStreamEntry
    by_cases hw : w0 = 0
    · rw [if_pos hw]
      rw [if_neg (by decide), if_pos rfl]
      exact storeInUseIfNewer_preserves he
    · rw [if_neg hw]
      by_cases h0 : ftype0 = 0
      · rw [if_pos h0]
        exact Or.inl he
      · rw [if_neg h0]
        by_cases hf1 : ftype0 = 1
        · rw [if_pos hf1]
          exact storeInUseIfNewer_preserves he
        · rw [if_neg hf1]
          by_cases hf2 : ftype0 = 2
          · rw [if_pos hf2]
            exact Or.inl (storeObjStreamIfAbsent_preserves he)
          · rw [if_neg hf2]
            exact Or.inl he

/-- Witness for C7's amended invariant at concrete tables. -/
theorem xref_entry_store_invariant_witness :
    xrefLookup (readXrefTableEntry [(7, .inUse 9 3)] 7 12 2 'n') 7 = some (.inUse 9 3) ∨
      ∃ e', xrefLookup (readXrefTableEntry [(7, .inUse 9 3)] 7 12 2 'n') 7 = some e' ∧
        genOf e' > genOf (.inUse 9 3) :=
  xref_entry_store_invariant.2.1 [(7, .inUse 9 3)] 7 12 2 'n' 7 (.inUse 9 3) rfl

/-- A PDF object as the reference tracer sees it: a `Reference` carrying
the key it resolves through, or any non-reference object abstracted by a
tag. -/
inductive TraceObj where
  | direct (tag : Nat)
  | ref (r : Nat)
deriving DecidableEq, Repr

/-- Modelled from the spec: `LookupByReference` of the core parser is not
in the source snapshot; section 4.D specifies lookup consulting the xref
table and object cache, with `Free` entries resolving to `Null`.  The
document is a finite table of resolved objects and a missing key yields
`Null`, a direct object (tag 0). -/
def lookupByReference : List (Nat × TraceObj) → Nat → TraceObj
  | [], _ => .direct 0
  | (n, o) :: rest, r => if n = r then o else lookupByReference rest r

theorem lookupByReference_not_mem {doc : List (Nat × TraceObj)} {r : Nat}
    (h : r ∉ doc.map Prod.fst) : lookupByReference doc r = .direct 0 := by
  induction doc with
  | nil => rfl
  | cons p rest ih =>
    obtain ⟨n, o⟩ := p
    simp only [List.map_cons, List.mem_cons, not_or] at h
    rw [lookupByReference, if_neg (fun hc => h.1 hc.symm)]
    exact ih h.2

/-- Weight of an object in the tracer's termination measure. -/
def isRefWeight : TraceObj → Nat
  | .ref _ => 1
  | .direct _ => 0

theorem isRefWeight_le_one (o : TraceObj) : isRefWeight o ≤ 1 := by
  cases o <;> simp [isRefWeight]

theorem filter_visited_lt {A refList : List Nat} {r : Nat}
    (hrA : r ∈ A) (hrv : r ∉ refList) :
    (A.filter (fun k => decide (k ∉ r :: refList))).length <
      (A.filter (fun k => decide (k ∉ refList))).length := by
  induction A with
  | nil => cases hrA
  | cons a as ih =>
    by_cases ha : a = r
    · subst ha
      have h1 : (decide (a ∉ a :: refList)) = false := by simp
      have h2 : (decide (a ∉ refList)) = true := by simpa using hrv
      rw [List.filter_cons, List.filter_cons, h1, h2]
      simp only [Bool.false_eq_true, if_false, if_true]
      have hmono : (as.filter (fun k => decide (k ∉ a :: refList))).length ≤
          (as.filter (fun k => decide (k ∉ refList))).length := by
        refine List.Sublist.length_le (List.monotone_filter_right as ?_)
        intro x hx
        simp only [decide_eq_true_eq, List.mem_cons, not_or] at hx ⊢
        exact hx.2
      simp only [List.length_cons]
      omega
    · have hmem : r ∈ as := by
        cases List.mem_cons.mp hrA with
        | inl h => exact absurd h.symm ha
        | inr h => exact h
      have hsame : (decide (a ∉ r :: refList)) = (decide (a ∉ refList)) := by
        simp only [List.mem_cons, not_or, decide_eq_decide]
        constructor
        · exact fun hx => hx.2
        · exact fun hx => ⟨ha, hx⟩
      rw [List.filter_cons, List.filter_cons, hsame]
      by_cases hav : (decide (a ∉ refList)) = true
      · rw [hav]
        simp only [if_true, List.length_cons]
        have := ih hmem
        omega
      · rw [Bool.not_eq_true] at hav
        rw [hav]
        simp only [Bool.false_eq_true, if_false]
        exact ih hmem

/-- `traceToObjectWrapper` (model/reader.go): while the object is a
reference, fail on a revisit, record the reference in the per-call
visited set and follow the lookup; anything that is not a reference is
returned.  (The Go set is keyed by reference pointer; the embedding keys
it by reference value, the per-call visited set of reference values the
spec describes.) -/
def traceToObjectWrapper (doc : List (Nat × TraceObj)) :
    List Nat → TraceObj → Except String TraceObj
  | _, .direct t => .ok (.direct t)
  | refList, .ref r =>
    if r ∈ refList then .error "Circular reference"
    else traceToObjectWrapper doc (r :: refList) (lookupByReference doc r)
termination_by refList obj =>
  2 * ((doc.map Prod.fst).dedup.filter (fun k => decide (k ∉ refList))).length +
    isRefWeight obj
decreasing_by
  rename_i hmem
  by_cases hr : r ∈ (doc.map Prod.fst).dedup
  · have hlt := filter_visited_lt hr hmem
    cases hL : lookupByReference doc r with
    | direct t => simp only [hL, isRefWeight]; omega
    | ref r2 => simp only [hL, isRefWeight]; omega
  · have heq : ((doc.map Prod.fst).dedup.filter (fun k => decide (k ∉ r :: refList))) =
        ((doc.map Prod.fst).dedup.filter (fun k => decide (k ∉ refList))) := by
      refine List.filter_congr ?_
      intro x hx
      have hxr : x ≠ r := fun hc => hr (hc ▸ hx)
      simp only [List.mem_cons, not_or, decide_eq_decide]
      constructor
      · exact fun h => h.2
      · exact fun h => ⟨hxr, h⟩
    have hobj : lookupByReference doc r = .direct 0 :=
      lookupByReference_not_mem (fun hc => hr (List.mem_dedup.mpr hc))
    rw [heq, hobj]
    simp only [isRefWeight]
    omega

/-- `traceToObject` (model/reader.go): trace with a fresh per-call
visited set. -/
def traceToObject (doc : List (Nat × TraceObj)) (obj : TraceObj) :
    Except String TraceObj :=
  traceToObjectWrapper doc [] obj

theorem traceToObjectWrapper_result (doc : List (Nat × TraceObj)) :
    ∀ (fuel : Nat) (refList : List Nat) (obj : TraceObj),
      2 * ((doc.map Prod.fst).dedup.filter (fun k => decide (k ∉ refList))).length +
        isRefWeight obj ≤ fuel →
      (∃ t, traceToObjectWrapper doc refList obj = .ok (.direct t)) ∨
        traceToObjectWrapper doc refList obj = .error "Circular reference" := by
  intro fuel
  induction fuel with
  | zero =>
    intro refList obj hle
    cases obj with
    | direct t => exact Or.inl ⟨t, by rw [traceToObjectWrapper]⟩
    | ref r =>
      exfalso
      simp only [isRefWeight] at hle
      omega
  | succ n ih =>
    intro refList obj hle
    cases obj with
    | direct t => exact Or.inl ⟨t, by rw [traceToObjectWrapper]⟩
    | ref r =>
      rw [traceToObjectWrapper]
      by_cases hmem : r ∈ refList
      · rw [if_pos hmem]
        exact Or.inr rfl
      · rw [if_neg hmem]
        refine ih (r :: refList) (lookupByReference doc r) ?_
        by_cases hr : r ∈ (doc.map Prod.fst).dedup
        · have hlt := filter_visited_lt hr hmem
          have hw := isRefWeight_le_one (lookupByReference doc r)
          simp only [isRefWeight] at hle
          omega
        · have heq : ((doc.map Prod.fst).dedup.filter (fun k => decide (k ∉ r :: refList))) =
              ((doc.map Prod.fst).dedup.filter (fun k => decide (k ∉ refList))) := by
            refine List.filter_congr ?_
            intro x hx
            have hxr : x ≠ r := fun hc => hr (hc ▸ hx)
            simp only [List.mem_cons, not_or, decide_eq_decide]
            constructor
            · exact fun h => h.2
            · exact fun h => ⟨hxr, h⟩
          have hobj : lookupByReference doc r = .direct 0 :=
            lookupByReference_not_mem (fun hc => hr (List.mem_dedup.mpr hc))
          rw [heq, hobj]
          simp only [isRefWeight] at hle ⊢
          omega

/-- C9: reference tracing terminates on every input: it is a total
function of the embedded document, and it either returns a non-reference
object or fails with the circular-reference error; the visited set never
lets a reference be followed twice. -/
theorem traceToObject_terminates (doc : List (Nat × TraceObj)) (obj : TraceObj) :
    (∃ t, traceToObject doc obj = .ok (.direct t)) ∨
      traceToObject doc obj = .error "Circular reference" :=
  traceToObjectWrapper_result doc
    (2 * ((doc.map Prod.fst).dedup.filter (fun k => decide (k ∉ ([] : List Nat)))).length +
      isRefWeight obj) [] obj (le_refl _)

/-- A CMap as the decoders use it (cmap package): the dense
code-to-target map and the `codeSpan` width bitset (an int8 holding ORed
bits 2 to the width).  Targets are byte strings. -/
structure CMapM where
  codeMap : List (Nat × List Nat)
  codeSpan : Int
deriving DecidableEq, Repr

/-- Go map read on the code map. -/
def codeMapLookup : List (Nat × List Nat) → Nat → Option (List Nat)
  | [], _ => none
  | (c, t) :: rest, code => if c = code then some t else codeMapLookup rest code

/-- Inner byte-accumulating loop of `CharcodeBytesToUnicode`
(cmap package): up to four bytes are shifted into the rolling code; a
code present in the map with its width bit set in `codeSpan` emits its
target and stops; reaching width four or the end of the input stops and
emits nothing (the fallback writes are commented out in the source).
Returns the Go loop's final `j` and the emitted bytes.  The third
argument counts the remaining widths, `4 - j`; the loop always stops by
`j = 3`, so exhausting it is unreachable.  Input bytes are below 256, so
the shift-or is the product-sum. -/
def charcodeInner (cm : CMapM) (src : List Nat) (i : Nat) :
    Nat → Nat → Nat → Nat × List Nat
  | _, j, 0 => (j, [])
  | code, j, rem + 1 =>
    if i + j < src.length then
      let code2 := code * 256 + src.getD (i + j) 0
      match codeMapLookup cm.codeMap code2 with
      | some tgt =>
        if Int.land cm.codeSpan (2 ^ (j + 1)) > 0 then (j, tgt)
        else if j = 3 ∨ i + j = src.length - 1 then (j, [])
        else charcodeInner cm src i code2 (j + 1) rem
      | none =>
        if j = 3 ∨ i + j = src.length - 1 then (j, [])
        else charcodeInner cm src i code2 (j + 1) rem
    else (j, [])

/-- One outer-loop step of `CharcodeBytesToUnicode` at position `i`:
final inner `j` and emitted bytes; the position then advances by
`j + 1`. -/
def charcodeStep (cm : CMapM) (src : List Nat) (i : Nat) : Nat × List Nat :=
  charcodeInner cm src i 0 0 4

/-- Outer loop of `CharcodeBytesToUnicode`: the fuel is an upper bound
on the number of iterations (each advances `i` by at least one), spent
only to make the recursion structural; callers pass the input length. -/
def charcodeOuter (cm : CMapM) (src : List Nat) : Nat → Nat → List Nat
  | 0, _ => []
  | fuel + 1, i =>
    if i < src.length then
      let (j, emitted) := charcodeStep cm src i
      emitted ++ charcodeOuter cm src fuel (i + j + 1)
    else []

/-- `CharcodeBytesToUnicode` (cmap package).  The `simpleEncoding` and
`flag` arguments only feed the `encodingList` the Go code builds and
never reads (its use is commented out), so they do not influence the
result. -/
def CharcodeBytesToUnicode (cm : CMapM) (src : List Nat)
    (simpleEncoding : List Nat) (flag : Bool) : List Nat :=
  charcodeOuter cm src src.length 0

/-- Strict `hex.DecodeString`: all-or-nothing, `none` on an odd length
or an invalid digit, as `CharcodeBytesToCidStr` writes the decoded
target only when the error is nil. -/
def goHexDecodeStrict : List Char → Option (List Nat)
  | [] => some []
  | [_] => none
  | c1 :: c2 :: rest =>
    match fromHexDigit c1, fromHexDigit c2, goHexDecodeStrict rest with
    | some h, some l, some bs => some ((h * 16 + l) :: bs)
    | _, _, _ => none

/-- The no-match fallback of `CharcodeBytesToCidStr`: echo the last up to
four consumed source bytes, `src[i+j-3 : i+j+1]` when `i+j-3 > 0` and
`src[0 : i+j+1]` otherwise. -/
def cidFailEmit (src : List Nat) (i j : Nat) : List Nat :=
  if i + j > 3 then ((src.drop (i + j - 3)).take 4) else src.take (i + j + 1)

/-- Inner loop of `CharcodeBytesToCidStr` (cmap package): like the
Unicode decoder, but a matched target is hex-decoded to raw bytes (and
dropped when the decode errs), and a failed position echoes the consumed
bytes. -/
def cidInner (cm : CMapM) (src : List Nat) (i : Nat) :
    Nat → Nat → Nat → Nat × List Nat
  | _, j, 0 => (j, [])
  | code, j, rem + 1 =>
    if i + j < src.length then
      let code2 := code * 256 + src.getD (i + j) 0
      match codeMapLookup cm.codeMap code2 with
      | some tgt =>
        if Int.land cm.codeSpan (2 ^ (j + 1)) > 0 then
          (j, (goHexDecodeStrict (tgt.map Char.ofNat)).getD [])
        else if j = 3 ∨ i + j = src.length - 1 then (j, cidFailEmit src i j)
        else cidInner cm src i code2 (j + 1) rem
      | none =>
        if j = 3 ∨ i + j = src.length - 1 then (j, cidFailEmit src i j)
        else cidInner cm src i code2 (j + 1) rem
    else (j, [])

/-- Outer loop of `CharcodeBytesToCidStr`, fuelled like the Unicode
one. -/
def cidOuter (cm : CMapM) (src : List Nat) : Nat → Nat → List Nat
  | 0, _ => []
  | fuel + 1, i =>
    if i < src.length then
      let (j, emitted) := cidInner cm src i 0 0 4
      emitted ++ cidOuter cm src fuel (i + j + 1)
    else []

/-- `CharcodeBytesToCidStr` (cmap package). -/
def CharcodeBytesToCidStr (cm : CMapM) (src : List Nat) : List Nat :=
  cidOuter cm src src.length 0

/-- `Utf8CodepointToUtf8` (cmap package): despite the name, it emits the
value's big-endian base-256 bytes, one to four of them by magnitude
thresholds 0x100, 0x10000, 0x1000000; `byte(...)` conversions
truncate. -/
def Utf8CodepointToUtf8 (v : Nat) : List Nat :=
  if v < 0x100 then [v]
  else if v < 0x10000 then [v / 256, v % 256]
  else if v < 0x1000000 then [v / 65536, v / 256 % 256, v % 256]
  else [v / 16777216 % 256, v / 65536 % 256, v / 256 % 256, v % 256]

/-- The standard UTF-8 encoding of a Unicode codepoint, written from the
claim's words for comparison with the code's behaviour. -/
def utf8EncodeCodepoint (v : Nat) : List Nat :=
  if v < 0x80 then [v]
  else if v < 0x800 then [0xC0 + v / 64, 0x80 + v % 64]
  else if v < 0x10000 then [0xE0 + v / 4096, 0x80 + v / 64 % 64, 0x80 + v % 64]
  else [0xF0 + v / 262144, 0x80 + v / 4096 % 64, 0x80 + v / 64 % 64, 0x80 + v % 64]

/-- The `Font` fields the text-assembly handler reads (model/reader.go):
`mPredefinedCmap`, `mCmap`, `mToCidCmap`, `mPredefinedSimpleEncoding`
and `mSimpleEncodingTable`. -/
structure Font where
  predefinedCmap : Bool
  cmap : Option CMapM
  cidCmap : Option CMapM
  simpleEncodingFlag : Bool
  simpleEncodingTable : List Nat
deriving DecidableEq, Repr

/-- `FontsByNames` lookup (a Go map read keyed by resource name). -/
def fontsLookup : List (String × Font) → String → Option Font
  | [], _ => none
  | (n, fo) :: rest, m => if n = m then some fo else fontsLookup rest m

/-- A content-stream operand as the handler inspects it. -/
inductive CParam where
  | name (s : String)
  | str (s : List Nat)
  | int (i : Int)
  | real (q : Rat)
  | arr (xs : List CParam)

/-- `ContentStreamOperation` (contentstream package). -/
structure ContentStreamOperation where
  operand : String
  params : List CParam

/-- Modelled from the spec: `GetNumberAsFloat` of the core package is not
in the source snapshot; it converts an integer or real object to a float
and errs otherwise. -/
def GetNumberAsFloat : CParam → Except String Rat
  | .int i => .ok (i : Rat)
  | .real q => .ok q
  | _ => .error "not a number"

/-- The locals of `ExtractText`'s handler closure (extractor/text.go):
the current font and its two CMap references, the in-text flag, the Tm
positions, the current and last-completed `re` rectangles, and the
output buffer.  Positions and rectangles are `float64` locals that are
only assigned and compared, embedded as exact rationals. -/
structure TextState where
  font : Option Font
  codemap : Option CMapM
  cidCodemap : Option CMapM
  inText : Bool
  xPos : Rat
  yPos : Rat
  rect0 : Rat
  rect1 : Rat
  rect2 : Rat
  rect3 : Rat
  preRect0 : Rat
  preRect1 : Rat
  preRect2 : Rat
  preRect3 : Rat
  buf : List Nat
deriving DecidableEq, Repr

/-- The initial handler state of `ExtractText`: positions and rectangles
start at -1, no font, empty buffer. -/
def initialTextState : TextState :=
  { font := none, codemap := none, cidCodemap := none, inText := false,
    xPos := -1, yPos := -1,
    rect0 := -1, rect1 := -1, rect2 := -1, rect3 := -1,
    preRect0 := -1, preRect1 := -1, preRect2 := -1, preRect3 := -1,
    buf := [] }

/-- The newline heuristic's comparison, Go's
`rect0 != preRect0 || rect1 != preRect1 || ...`. -/
def rectsDiffer (st : TextState) : Bool :=
  decide (st.rect0 ≠ st.preRect0) || decide (st.rect1 ≠ st.preRect1) ||
  decide (st.rect2 ≠ st.preRect2) || decide (st.rect3 ≠ st.preRect3)

/-- The shared show-string pipeline of `Tj`, the `TJ` string elements,
quote and double-quote (extractor/text.go): an optional charcode-to-CID
rewrite, then the ToUnicode CMap, the simple encoding table, or the raw
bytes.  A nil current font with a live codemap would dereference nil in
Go; it is modelled as an error and is unreachable because only `Tf` sets
the codemap. -/
def showString (st : TextState) (bytes : List Nat) : TextState × Option String :=
  let bytes2 :=
    match st.font, st.cidCodemap with
    | some fo, some cc =>
      if fo.predefinedCmap then CharcodeBytesToCidStr cc bytes else bytes
    | _, _ => bytes
  match st.codemap with
  | some cm =>
    match st.font with
    | some fo =>
      if fo.simpleEncodingFlag then
        ({ st with buf := st.buf ++
          CharcodeBytesToUnicode cm bytes2 fo.simpleEncodingTable true }, none)
      else
        ({ st with buf := st.buf ++ CharcodeBytesToUnicode cm bytes2 [] false }, none)
    | none => (st, some "nil font dereference")
  | none =>
    match st.font with
    | some fo =>
      if fo.simpleEncodingFlag then
        ({ st with buf := st.buf ++
          (bytes2.map (fun b => Utf8CodepointToUtf8 (fo.simpleEncodingTable.getD b 0))).flatten },
          none)
      else ({ st with buf := st.buf ++ bytes2 }, none)
    | none => ({ st with buf := st.buf ++ bytes2 }, none)

/-- The `TJ` element loop: strings are shown, numeric displacements
below -100 emit nothing (the space write is commented out), everything
else is ignored. -/
def showTJList (st : TextState) : List CParam → TextState × Option String
  | [] => (st, none)
  | p :: rest =>
    match p with
    | .str s =>
      match showString st s with
      | (st2, some e) => (st2, some e)
      | (st2, none) => showTJList st2 rest
    | _ => showTJList st rest

/-- The `re` case: four floats are read in order, a parse failure
returns nil keeping the assignments made so far. -/
def handleRe (st : TextState) (ps : List CParam) : TextState × Option String :=
  if st.inText then (st, none)
  else if ps.length ≠ 4 then (st, some "Incorrect parameter count")
  else
    match GetNumberAsFloat (ps.getD 0 (.int 0)) with
    | .error _ => (st, none)
    | .ok r0 =>
      match GetNumberAsFloat (ps.getD 1 (.int 0)) with
      | .error _ => ({ st with rect0 := r0 }, none)
      | .ok r1 =>
        match GetNumberAsFloat (ps.getD 2 (.int 0)) with
        | .error _ => ({ st with rect0 := r0, rect1 := r1 }, none)
        | .ok r2 =>
          match GetNumberAsFloat (ps.getD 3 (.int 0)) with
          | .error _ =>
            ({ st with rect0 := r0, rect1 := r1, rect2 := r2 }, none)
          | .ok r3 =>
            ({ st with
                rect0 := r0,
                rect1 := r1,
                rect2 := r2,
                rect3 := r3 }, none)

/-- The `Tm` case (extractor/text.go): read e and f from operands 4 and
5 (float, else integer, else silently return); on the first Tm record f,
on a y drop emit a newline only when the rectangles differ and return
early, otherwise record f and handle the x advance with a tab. -/
def handleTm (st : TextState) (ps : List CParam) : TextState × Option String :=
  if ¬st.inText then (st, none)
  else if ps.length ≠ 6 then (st, some "Tm: Invalid number of inputs")
  else
    let px := ps.getD 4 (.int 0)
    let py := ps.getD 5 (.int 0)
    match (match px with
           | .real q => some q
           | .int i => some (i : Rat)
           | _ => none) with
    | none => (st, none)
    | some e =>
      match (match py with
             | .real q => some q
             | .int i => some (i : Rat)
             | _ => none) with
      | none => (st, none)
      | some f =>
        if st.yPos = -1 then
          let st := { st with yPos := f }
          if st.xPos = -1 then ({ st with xPos := e }, none)
          else if st.xPos < e then ({ st with buf := st.buf ++ [9], xPos := e }, none)
          else (st, none)
        else if st.yPos > f then
          let st := if rectsDiffer st then { st with buf := st.buf ++ [10] } else st
          ({ st with xPos := e, yPos := f }, none)
        else
          let st := { st with yPos := f }
          if st.xPos = -1 then ({ st with xPos := e }, none)
          else if st.xPos < e then ({ st with buf := st.buf ++ [9], xPos := e }, none)
          else (st, none)

/-- The handler `ExtractText` registers for all operations
(extractor/text.go): the full operand switch. -/
def handleOp (f : List (String × Font)) (st : TextState)
    (op : ContentStreamOperation) : TextState × Option String :=
  if op.operand = "re" then handleRe st op.params
  else if op.operand = "BT" then ({ st with inText := true }, none)
  else if op.operand = "ET" then
    ({ st with
        inText := false,
        preRect0 := st.rect0,
        preRect1 := st.rect1,
        preRect2 := st.rect2,
        preRect3 := st.rect3 }, none)
  else if op.operand = "Tf" then
    if ¬st.inText then (st, none)
    else if op.params.length ≠ 2 then (st, some "Incorrect parameter count")
    else
      match op.params.getD 0 (.int 0) with
      | .name n =>
        let st := { st with font := none, codemap := none, cidCodemap := none }
        match fontsLookup f n with
        | some fo =>
          ({ st with
              font := some fo,
              codemap := fo.cmap,
              cidCodemap := fo.cidCmap }, none)
        | none => (st, some "cant find Tf font by name")
      | _ => (st, some "Tf range error")
  else if op.operand = "T*" then
    if ¬st.inText then (st, none)
    else if rectsDiffer st then ({ st with buf := st.buf ++ [10] }, none)
    else (st, none)
  else if op.operand = "'" then
    if ¬st.inText then (st, none)
    else
      let st := if rectsDiffer st then { st with buf := st.buf ++ [10] } else st
      if op.params.length < 1 then (st, none)
      else
        match op.params.getD 0 (.int 0) with
        | .str s => showString st s
        | _ => (st, some "Invalid parameter type, not string")
  else if op.operand = "\"" then
    if ¬st.inText then (st, none)
    else
      let st := if rectsDiffer st then { st with buf := st.buf ++ [10] } else st
      if op.params.length < 1 then (st, none)
      else if op.params.length < 3 then (st, some "panic: index out of range")
      else
        match op.params.getD 2 (.int 0) with
        | .str s => showString st s
        | _ => (st, some "Invalid parameter type, not string")
  else if op.operand = "Td" ∨ op.operand = "TD" then
    if ¬st.inText then (st, none)
    else if op.params.length ≠ 2 then (st, none)
    else
      match GetNumberAsFloat (op.params.getD 0 (.int 0)) with
      | .error _ => (st, none)
      | .ok _ =>
        match GetNumberAsFloat (op.params.getD 1 (.int 0)) with
        | .error _ => (st, none)
        | .ok ty =>
          if ty < 0 then
            if rectsDiffer st then ({ st with buf := st.buf ++ [10] }, none)
            else (st, none)
          else (st, none)
  else if op.operand = "Tm" then handleTm st op.params
  else if op.operand = "TJ" then
    if ¬st.inText then (st, none)
    else if op.params.length < 1 then (st, none)
    else
      match op.params.getD 0 (.int 0) with
      | .arr xs => showTJList st xs
      | _ => (st, some "Invalid parameter type, no array")
  else if op.operand = "Tj" then
    if ¬st.inText then (st, none)
    else if op.params.length < 1 then (st, none)
    else
      match op.params.getD 0 (.int 0) with
      | .str s => showString st s
      | _ => (st, some "Invalid parameter type, not string")
  else (st, none)

/-- `ContentStreamProcessor.Process` with the single all-operations
handler installed: run the handler over the operations in order, stopping
at the first error. -/
def processOps (f : List (String × Font)) (st : TextState) :
    List ContentStreamOperation → TextState × Option String
  | [] => (st, none)
  | op :: rest =>
    match handleOp f st op with
    | (st2, some e) => (st2, some e)
    | (st2, none) => processOps f st2 rest

/-- `ExtractText` (extractor/text.go) over an already-tokenised
operation list: the extracted bytes so far and the processing error, if
any (the Go function returns `buf.String()` alongside the error). -/
def ExtractText (f : List (String × Font)) (ops : List ContentStreamOperation) :
    List Nat × Option String :=
  let (st, e) := processOps f initialTextState ops
  (st.buf, e)

/-- `parseText` (pdf_extract_text.go) over the in-order list of content
streams the producer goroutine emits: decode each stream, aborting the
whole document on a decode error; run extraction, discarding its error
(the Go line assigning the error to the blank identifier); append the
text and the page separator. -/
def parseTextGo {σ : Type} (decode : σ → Except String (List Nat))
    (extract : List Nat → List Nat × Option String) :
    List σ → Except String (List Nat)
  | [] => .ok []
  | s :: rest =>
    match decode s with
    | .error e => .error e
    | .ok d =>
      match parseTextGo decode extract rest with
      | .error e => .error e
      | .ok acc => .ok ((extract d).1 ++ [10, 10] ++ acc)

/-- The font bound to F1 in C1's scenario: the claim fixes no encoding,
so the font decodes through the raw-bytes path (identity on ASCII, as
any of the simple tables would be). -/
def fontF1 : Font :=
  { predefinedCmap := false, cmap := none, cidCmap := none,
    simpleEncodingFlag := false, simpleEncodingTable := [] }

/-- Modelled from the spec: the content-stream tokeniser (component G,
`NewContentStreamParser`) is not in the source snapshot; per section 4.G
operands accumulate until an operator token, so the stream
`BT /F1 12 Tf 1 0 0 1 0 100 Tm (A) Tj 1 0 0 1 0 50 Tm (B) Tj ET`
tokenises to this operation list. -/
def opsC1 : List ContentStreamOperation :=
  [⟨"BT", []⟩,
   ⟨"Tf", [.name "F1", .int 12]⟩,
   ⟨"Tm", [.int 1, .int 0, .int 0, .int 1, .int 0, .int 100]⟩,
   ⟨"Tj", [.str [65]]⟩,
   ⟨"Tm", [.int 1, .int 0, .int 0, .int 1, .int 0, .int 50]⟩,
   ⟨"Tj", [.str [66]]⟩,
   ⟨"ET", []⟩]

/-- The single-page extraction of C1's scenario: the page text plus the
page separator `parseText` appends. -/
def pageTextC1 : List Nat :=
  (ExtractText [("F1", fontF1)] opsC1).1 ++ [10, 10]

/-- C1 counterexample: with no `re` operators the current and
last-completed rectangles are equal (both still at their initial -1
values), so the y-drop of the second `Tm` emits no newline: the
extracted text is AB followed by the page separator, not the claimed
A newline B. -/
theorem extractText_tm_drop_counterexample :
    pageTextC1 = [65, 66, 10, 10] ∧
    ([65, 66, 10, 10] : List Nat) ≠ [65, 10, 66, 10, 10] :=
  ⟨rfl, by decide⟩

/-- C1 (amended): for the one-page scenario of the claim, with no `re`
operators the rectangle comparison suppresses the newline and extraction
yields AB and the page separator. -/
theorem extractText_tm_drop_no_re :
    pageTextC1 = [65, 66, 10, 10] := rfl

/-- The operation list whose extraction fails after producing text: a
`Tj` writes A, then a `Tf` with no operands fails the parameter-count
check. -/
def opsC2 : List ContentStreamOperation :=
  [⟨"BT", []⟩, ⟨"Tj", [.str [65]]⟩, ⟨"Tf", []⟩]

/-- A decoder that always succeeds, for C2's counterexample. -/
def decodeC2 : Unit → Except String (List Nat) := fun _ => .ok []

/-- The extractor of C2's counterexample: the embedded `ExtractText` run
on the failing operation list. -/
def extractC2 : List Nat → List Nat × Option String := fun _ => ExtractText [] opsC2

/-- C2 counterexample: extraction of the stream fails (with partial text
A), yet `parseText` ignores the error, keeps the partial text and
returns success; only decode failures abort. -/
theorem parseText_extract_error_ignored :
    ExtractText [] opsC2 = ([65], some "Incorrect parameter count") ∧
    parseTextGo decodeC2 extractC2 [()] = .ok [65, 10, 10] ∧
    (Except.ok [65, 10, 10] : Except String (List Nat)) ≠
      .error "Incorrect parameter count" :=
  ⟨rfl, rfl, fun h => Except.noConfusion h⟩

/-- C2 (amended): if decoding some content stream fails (all earlier
ones decoding fine), `parseText` returns that error and no partial
output; extraction failures, by contrast, are ignored. -/
theorem parseText_decode_failure_aborts {σ : Type}
    (decode : σ → Except String (List Nat))
    (extract : List Nat → List Nat × Option String)
    (pre : List σ) (s : σ) (post : List σ) (e : String)
    (hpre : ∀ x ∈ pre, ∃ d, decode x = .ok d) (hs : decode s = .error e) :
    parseTextGo decode extract (pre ++ s :: post) = .error e := by
  induction pre with
  | nil => simp [parseTextGo, hs]
  | cons a as ih =>
    obtain ⟨d, hd⟩ := hpre a (by simp)
    simp only [List.cons_append, parseTextGo, hd, List.append_eq]
    rw [ih (fun x hx => hpre x (by simp [hx]))]

/-- Witness for C2's amended theorem: one stream whose decode fails. -/
theorem parseText_decode_failure_aborts_witness :
    parseTextGo (fun (_ : Unit) => (.error "decode failed" : Except String (List Nat)))
      extractC2 ([] ++ () :: []) = .error "decode failed" :=
  parseText_decode_failure_aborts _ _ [] () [] "decode failed"
    (fun x hx => absurd hx (List.not_mem_nil x)) rfl

/-- The font of C3's counterexample: a simple encoding table whose every
slot holds the codepoint 0xE9, no ToUnicode CMap. -/
def fontC3 : Font :=
  { predefinedCmap := false, cmap := none, cidCmap := none,
    simpleEncodingFlag := true, simpleEncodingTable := List.replicate 256 233 }

/-- The operations of C3's counterexample: show one byte through the
simple-encoding font. -/
def opsC3 : List ContentStreamOperation :=
  [⟨"BT", []⟩, ⟨"Tf", [.name "F1", .int 12]⟩, ⟨"Tj", [.str [0]]⟩]

/-- C3 counterexample: with simple_encoding[0] = 0xE9 the extractor
appends the single raw byte 0xE9, which is not the UTF-8 encoding of
U+00E9 (the two bytes 0xC3 0xA9). -/
theorem simple_encoding_not_utf8_counterexample :
    (ExtractText [("F1", fontC3)] opsC3).1 = [233] ∧
    utf8EncodeCodepoint 233 = [195, 169] ∧
    ([233] : List Nat) ≠ [195, 169] :=
  ⟨rfl, rfl, by decide⟩

/-- C3 (amended): through a font with a simple encoding table and no
ToUnicode CMap, each shown byte b appends the big-endian base-256 bytes
of simple_encoding[b], `Utf8CodepointToUtf8`'s widths being decided by
the thresholds 0x100, 0x10000, 0x1000000; this agrees with the UTF-8
encoding of the codepoint exactly on values below 0x80. -/
theorem showString_simple_encoding (st : TextState) (fo : Font) (bytes : List Nat)
    (hf : st.font = some fo) (hcm : st.codemap = none) (hcc : st.cidCodemap = none)
    (hflag : fo.simpleEncodingFlag = true) :
    showString st bytes =
      ({ st with buf := st.buf ++
        (bytes.map (fun b => Utf8CodepointToUtf8 (fo.simpleEncodingTable.getD b 0))).flatten },
        none) ∧
    (∀ v : Nat, v < 128 → Utf8CodepointToUtf8 v = utf8EncodeCodepoint v) := by
  constructor
  · unfold showString
    rw [hf, hcc, hcm]
    simp only [hflag, if_true]
  · intro v hv
    unfold Utf8CodepointToUtf8 utf8EncodeCodepoint
    rw [if_pos (by omega), if_pos (by omega)]

/-- Witness for C3's amended theorem at the counterexample font. -/
theorem showString_simple_encoding_witness :
    showString { initialTextState with font := some fontC3 } [0] =
      ({ { initialTextState with font := some fontC3 } with
          buf := ({ initialTextState with font := some fontC3 } : TextState).buf ++
            (([0] : List Nat).map
              (fun b => Utf8CodepointToUtf8 (fontC3.simpleEncodingTable.getD b 0))).flatten },
        none) ∧
    (∀ v : Nat, v < 128 → Utf8CodepointToUtf8 v = utf8EncodeCodepoint v) :=
  showString_simple_encoding { initialTextState with font := some fontC3 } fontC3 [0]
    rfl rfl rfl rfl

/-- The CMap with no entries and empty codespace, for C4's
counterexample. -/
def cmapEmpty : CMapM := ⟨[], 0⟩

/-- C4 counterexample: at a position where no prefix of any width
matches, the decoder advances by four bytes (not one) when at least four
bytes remain, emitting nothing. -/
theorem charcode_advance_counterexample :
    (charcodeStep cmapEmpty [0, 0, 0, 0, 0] 0).1 + 1 = 4 ∧
    (charcodeStep cmapEmpty [0, 0, 0, 0, 0] 0).2 = [] ∧
    (4 : Nat) ≠ 1 ∧
    CharcodeBytesToUnicode cmapEmpty [0, 0, 0, 0, 0] [] false = [] :=
  ⟨rfl, rfl, by decide, rfl⟩

/-- The rolling code accumulated by the inner loop after reading j bytes
from position i. -/
def codeAcc (src : List Nat) (i : Nat) : Nat → Nat
  | 0 => 0
  | j + 1 => codeAcc src i j * 256 + src.getD (i + j) 0

theorem charcodeInner_no_match (cm : CMapM) (src : List Nat) (i : Nat)
    (hnm : ∀ j, j < min 4 (src.length - i) →
      ¬(∃ tgt, codeMapLookup cm.codeMap (codeAcc src i (j + 1)) = some tgt ∧
        Int.land cm.codeSpan (2 ^ (j + 1)) > 0)) :
    ∀ (rem j : Nat), rem + j = 4 → j < 4 → i + j < src.length →
      charcodeInner cm src i (codeAcc src i j) j rem =
        (min 4 (src.length - i) - 1, []) := by
  intro rem
  induction rem with
  | zero =>
    intro j h4 hj _
    omega
  | succ n ih =>
    intro j h4 hj hlen
    have hjmin : j < min 4 (src.length - i) := by omega
    have hstop : (j = 3 ∨ i + j = src.length - 1) →
        j = min 4 (src.length - i) - 1 := by
      rintro (rfl | hl)
      · omega
      · omega
    rw [charcodeInner]
    rw [if_pos hlen]
    have hacc : codeAcc src i j * 256 + src.getD (i + j) 0 = codeAcc src i (j + 1) := rfl
    cases hlook : codeMapLookup cm.codeMap (codeAcc src i j * 256 + src.getD (i + j) 0) with
    | some tgt =>
      have hbit : ¬(Int.land cm.codeSpan (2 ^ (j + 1)) > 0) := by
        intro hb
        exact hnm j hjmin ⟨tgt, by rw [← hacc]; exact hlook, hb⟩
      simp only [hlook]
      rw [if_neg hbit]
      by_cases hend : j = 3 ∨ i + j = src.length - 1
      · rw [if_pos hend]
        rw [hstop hend]
      · rw [if_neg hend]
        push_neg at hend
        have := ih (j + 1) (by omega) (by omega) (by omega)
        rw [← hacc] at this
        exact this
    | none =>
      simp only [hlook]
      by_cases hend : j = 3 ∨ i + j = src.length - 1
      · rw [if_pos hend]
        rw [hstop hend]
      · rw [if_neg hend]
        push_neg at hend
        have := ih (j + 1) (by omega) (by omega) (by omega)
        rw [← hacc] at this
        exact this

/-- C4 (amended): at any position where no accumulated prefix of width
one to four is in the code map with its width bit set, the decoder emits
nothing and advances by the minimum of four and the remaining byte
count, not by one byte. -/
theorem charcode_no_match_advance (cm : CMapM) (src : List Nat) (i : Nat)
    (hi : i < src.length)
    (hnm : ∀ j, j < min 4 (src.length - i) →
      ¬(∃ tgt, codeMapLookup cm.codeMap (codeAcc src i (j + 1)) = some tgt ∧
        Int.land cm.codeSpan (2 ^ (j + 1)) > 0)) :
    (charcodeStep cm src i).1 + 1 = min 4 (src.length - i) ∧
    (charcodeStep cm src i).2 = [] := by
  have h := charcodeInner_no_match cm src i hnm 4 0 (by omega) (by omega) (by omega)
  unfold charcodeStep
  have h0 : codeAcc src i 0 = 0 := rfl
  rw [h0] at h
  rw [h]
  constructor
  · simp only []
    omega
  · rfl

/-- Witness for C4's amended theorem on a two-byte input and the empty
CMap. -/
theorem charcode_no_match_advance_witness :
    (charcodeStep cmapEmpty [0, 0] 0).1 + 1 = min 4 ([0, 0].length - 0) ∧
    (charcodeStep cmapEmpty [0, 0] 0).2 = [] :=
  charcode_no_match_advance cmapEmpty [0, 0] 0 (by decide)
    (fun j hj h => by
      obtain ⟨tgt, ht, _⟩ := h
      simp [cmapEmpty, codeMapLookup] at ht)

end PdfTextExtract
